import Mathlib

/-!
Shallow embedding of the optopodi metrics/report pipeline, verified against
its natural-language specification.

Sources embedded here:
* src/report/repo_participant.rs : RepoParticipant, parse_participants, is_robot,
  reviewed_or_resolved
* src/report/repo_info.rs : RepoInfo, RepoInfos, parse_repo_infos, get,
  is_high_contributor
* src/report.rs : HighContributorConfig, ReportConfig
* src/metrics/list_repos.rs : ListReposForOrg, column_names, producer_task
* src/report/util.rs : GitHubOrganization

The GraphQL query cache and pagination client (`fetch_or_replay`, `paginate`)
and the helpers `percentage` and `count_pull_requests` live in files of the
repository that are not part of the sources; they are modelled from the
specification, as marked in their doc comments.

Rust `u64`/`usize` counters are modelled as `Nat`: none of the verified
operations can overflow (they only copy, compare and add at most three
values), so wrap-around is unreachable in the embedded fragment.
Rust panics (`HashMap` indexing) are modelled as `Option.none`.
-/

set_option autoImplicit false

namespace Optopodi

/-! ### src/report/repo_participant.rs -/

/-- One CSV record of `repo-participants.csv` (struct `RepoParticipant`,
src/report/repo_participant.rs lines 18-34). -/
structure RepoParticipant where
  row : Nat
  participant : String
  repo : String
  participated_in : Nat
  authored : Nat
  reviewed : Nat
  resolved : Nat
deriving DecidableEq, Repr

/-- Struct `RepoParticipants` (src/report/repo_participant.rs lines 13-16). -/
structure RepoParticipants where
  participants : List RepoParticipant
deriving DecidableEq, Repr

/-- The fixed bot denylist (`ROBOTS` in `is_robot`,
src/report/repo_participant.rs lines 103-110). -/
def ROBOTS : List String :=
  ["rust-highfive", "bors", "rustbot", "rust-log-analyzer", "rust-timer", "rfcbot"]

/-- `is_robot` (src/report/repo_participant.rs lines 101-113). -/
def is_robot (login : String) : Bool :=
  ROBOTS.contains login

/-- The record loop of `RepoParticipants::parse_participants`
(src/report/repo_participant.rs lines 63-68): each decoded record is pushed
onto the accumulator `vec` unless its participant is a robot. -/
def parse_participants_loop (acc : List RepoParticipant) :
    List RepoParticipant → List RepoParticipant
  | [] => acc
  | record :: rest =>
    if !is_robot record.participant then
      parse_participants_loop (acc ++ [record]) rest
    else
      parse_participants_loop acc rest

/-- `RepoParticipants::parse_participants`
(src/report/repo_participant.rs lines 59-70), taking the already-decoded CSV
records as input (CSV decoding itself is external I/O). -/
def parse_participants (records : List RepoParticipant) : RepoParticipants :=
  { participants := parse_participants_loop [] records }

/-- `RepoParticipant::reviewed_or_resolved`
(src/report/repo_participant.rs lines 96-98). -/
def RepoParticipant.reviewed_or_resolved (p : RepoParticipant) : Nat :=
  max p.reviewed p.resolved

/-! ### src/report/repo_info.rs -/

/-- One CSV record of `repo-infos.csv` (struct `RepoInfo`,
src/report/repo_info.rs lines 16-24). -/
structure RepoInfo where
  row : Nat
  repo : String
  num_prs : Nat
deriving DecidableEq, Repr

/-- Struct `RepoInfos` (src/report/repo_info.rs lines 11-14). The Rust
`HashMap<String, RepoInfo>` is modelled as an association list with
replace-on-insert semantics; entry order is irrelevant to the verified
claims. -/
structure RepoInfos where
  repos : List (String × RepoInfo)
deriving DecidableEq, Repr

/-- `HashMap::insert`: replace the value of an existing key, otherwise add
the binding. -/
def hashMapInsert (m : List (String × RepoInfo)) (k : String) (v : RepoInfo) :
    List (String × RepoInfo) :=
  if m.any (fun e => e.1 = k) then
    m.map (fun e => if e.1 = k then (k, v) else e)
  else
    m ++ [(k, v)]

/-- `HashMap` lookup (`self.repos.get(repo)`), `none` when the key is absent. -/
def hashMapGet (m : List (String × RepoInfo)) (k : String) : Option RepoInfo :=
  (m.find? (fun e => e.1 = k)).map Prod.snd

/-- The record loop of `RepoInfos::parse_repo_infos`
(src/report/repo_info.rs lines 52-55): `map.insert(record.repo.clone(), record)`. -/
def parse_repo_infos_loop (m : List (String × RepoInfo)) :
    List RepoInfo → List (String × RepoInfo)
  | [] => m
  | record :: rest => parse_repo_infos_loop (hashMapInsert m record.repo record) rest

/-- `RepoInfos::parse_repo_infos` (src/report/repo_info.rs lines 48-57),
taking the already-decoded CSV records as input. -/
def parse_repo_infos (records : List RepoInfo) : RepoInfos :=
  { repos := parse_repo_infos_loop [] records }

/-- `RepoInfos::get` (src/report/repo_info.rs lines 59-61): `&self.repos[repo]`.
Rust `HashMap` indexing panics on a missing key; the panic is modelled as
`none`. -/
def RepoInfos.get (infos : RepoInfos) (repo : String) : Option RepoInfo :=
  hashMapGet infos.repos repo

/-! ### Helper lemmas on the association-list model -/

theorem hashMapInsert_keys_of_mem (m : List (String × RepoInfo)) (k : String)
    (v : RepoInfo) (h : k ∈ m.map Prod.fst) :
    (hashMapInsert m k v).map Prod.fst = m.map Prod.fst := by
  have hany : m.any (fun e => e.1 = k) = true := by
    rw [List.any_eq_true]
    rcases List.mem_map.mp h with ⟨e, he, hek⟩
    exact ⟨e, he, by simp [hek]⟩
  unfold hashMapInsert
  rw [if_pos hany, List.map_map]
  apply List.map_congr_left
  intro e _
  by_cases hek : e.1 = k <;> simp [hek]

theorem hashMapInsert_keys_of_not_mem (m : List (String × RepoInfo)) (k : String)
    (v : RepoInfo) (h : k ∉ m.map Prod.fst) :
    (hashMapInsert m k v).map Prod.fst = m.map Prod.fst ++ [k] := by
  have hany : m.any (fun e => e.1 = k) = false := by
    rw [List.any_eq_false]
    intro e he
    simp only [decide_eq_true_eq]
    intro hek
    exact h (List.mem_map.mpr ⟨e, he, hek⟩)
  unfold hashMapInsert
  rw [if_neg (by simp [hany]), List.map_append]
  rfl

theorem mem_keys_hashMapInsert (m : List (String × RepoInfo)) (k k' : String)
    (v : RepoInfo) :
    k' ∈ (hashMapInsert m k v).map Prod.fst ↔ k' ∈ m.map Prod.fst ∨ k' = k := by
  by_cases h : k ∈ m.map Prod.fst
  · rw [hashMapInsert_keys_of_mem m k v h]
    constructor
    · exact Or.inl
    · rintro (hk | rfl)
      · exact hk
      · exact h
  · rw [hashMapInsert_keys_of_not_mem m k v h]
    simp

theorem nodup_keys_hashMapInsert (m : List (String × RepoInfo)) (k : String)
    (v : RepoInfo) (h : (m.map Prod.fst).Nodup) :
    ((hashMapInsert m k v).map Prod.fst).Nodup := by
  by_cases hk : k ∈ m.map Prod.fst
  · rw [hashMapInsert_keys_of_mem m k v hk]; exact h
  · rw [hashMapInsert_keys_of_not_mem m k v hk]
    rw [List.nodup_append]
    refine ⟨h, List.nodup_singleton k, ?_⟩
    intro a ha hak
    simp only [List.mem_singleton] at hak
    exact hk (hak ▸ ha)

theorem mem_hashMapInsert (m : List (String × RepoInfo)) (k : String)
    (v : RepoInfo) (e : String × RepoInfo) (he : e ∈ hashMapInsert m k v) :
    e ∈ m ∨ e = (k, v) := by
  unfold hashMapInsert at he
  by_cases hany : m.any (fun x => x.1 = k) = true
  · rw [if_pos hany, List.mem_map] at he
    rcases he with ⟨x, hx, hxe⟩
    by_cases hxk : x.1 = k
    · right; simp [hxk] at hxe; exact hxe.symm
    · left; rw [if_neg hxk] at hxe; exact hxe ▸ hx
  · rw [if_neg hany, List.mem_append] at he
    rcases he with hm | hkv
    · exact Or.inl hm
    · right; simpa using hkv

theorem hashMapGet_eq_none_iff (m : List (String × RepoInfo)) (k : String) :
    hashMapGet m k = none ↔ k ∉ m.map Prod.fst := by
  unfold hashMapGet
  rw [Option.map_eq_none', List.find?_eq_none]
  constructor
  · intro h hk
    rcases List.mem_map.mp hk with ⟨x, hx, hxk⟩
    exact absurd hxk (by simpa using h x hx)
  · intro hk x hx
    simp only [decide_eq_true_eq]
    exact fun hxk => hk (List.mem_map.mpr ⟨x, hx, hxk⟩)

theorem hashMapGet_mem (m : List (String × RepoInfo)) (k : String)
    (v : RepoInfo) (h : hashMapGet m k = some v) : (k, v) ∈ m := by
  unfold hashMapGet at h
  rcases Option.map_eq_some'.mp h with ⟨e, hfind, hev⟩
  have hmem := List.mem_of_find?_eq_some hfind
  have hpred := List.find?_some hfind
  simp only [decide_eq_true_eq] at hpred
  have he : e = (k, v) := by
    cases e; simp_all
  exact he ▸ hmem

/-- Invariant of `parse_repo_infos_loop`: keys stay duplicate-free, every entry
stores a record whose `repo` field equals its key, and the key set is the old
key set plus the `repo` names of the processed records. -/
theorem parse_repo_infos_loop_invariant (records : List RepoInfo) :
    ∀ m : List (String × RepoInfo),
    (m.map Prod.fst).Nodup →
    (∀ e ∈ m, (Prod.snd e).repo = e.1) →
    ((parse_repo_infos_loop m records).map Prod.fst).Nodup ∧
    (∀ e ∈ parse_repo_infos_loop m records, (Prod.snd e).repo = e.1) ∧
    (∀ k, k ∈ (parse_repo_infos_loop m records).map Prod.fst ↔
      k ∈ m.map Prod.fst ∨ k ∈ records.map RepoInfo.repo) := by
  induction records with
  | nil =>
    intro m hnodup hinv
    refine ⟨hnodup, hinv, fun k => ?_⟩
    simp [parse_repo_infos_loop]
  | cons record rest ih =>
    intro m hnodup hinv
    have hnodup2 := nodup_keys_hashMapInsert m record.repo record hnodup
    have hinv2 : ∀ e ∈ hashMapInsert m record.repo record, (Prod.snd e).repo = e.1 := by
      intro e he
      rcases mem_hashMapInsert m record.repo record e he with hm | rfl
      · exact hinv e hm
      · rfl
    rcases ih (hashMapInsert m record.repo record) hnodup2 hinv2 with ⟨h1, h2, h3⟩
    refine ⟨h1, h2, fun k => ?_⟩
    rw [show parse_repo_infos_loop m (record :: rest)
        = parse_repo_infos_loop (hashMapInsert m record.repo record) rest from rfl]
    rw [h3 k, mem_keys_hashMapInsert]
    simp only [List.map_cons, List.mem_cons]
    tauto

/-! ### Claims C7, C10, C1, C8 -/

/-- C7: `parse_repo_infos` yields exactly one `RepoInfo` per distinct repository
name of the input, keyed by that name; looking a key up returns a record whose
`repo` field equals the key. -/
theorem parse_repo_infos_unique_per_repo (records : List RepoInfo) :
    (((parse_repo_infos records).repos.map Prod.fst).Nodup ∧
      ∀ k, k ∈ (parse_repo_infos records).repos.map Prod.fst ↔
        k ∈ records.map RepoInfo.repo) ∧
    ∀ k v, hashMapGet (parse_repo_infos records).repos k = some v → v.repo = k := by
  rcases parse_repo_infos_loop_invariant records [] (by simp) (by simp) with ⟨h1, h2, h3⟩
  refine ⟨⟨h1, fun k => ?_⟩, fun k v hget => ?_⟩
  · rw [show (parse_repo_infos records).repos = parse_repo_infos_loop [] records from rfl,
      h3 k]
    simp
  · exact h2 (k, v) (hashMapGet_mem _ _ _ hget)

/-- C7 witness: at a concrete input with a duplicate repo name. -/
theorem parse_repo_infos_unique_per_repo_witness :
    (((parse_repo_infos [⟨1, "a", 5⟩, ⟨2, "b", 7⟩, ⟨3, "a", 9⟩]).repos.map
      Prod.fst).Nodup ∧
      ∀ k, k ∈ (parse_repo_infos [⟨1, "a", 5⟩, ⟨2, "b", 7⟩, ⟨3, "a", 9⟩]).repos.map
        Prod.fst ↔
        k ∈ ([⟨1, "a", 5⟩, ⟨2, "b", 7⟩, ⟨3, "a", 9⟩] : List RepoInfo).map
          RepoInfo.repo) ∧
    ∀ k v, hashMapGet (parse_repo_infos
      [⟨1, "a", 5⟩, ⟨2, "b", 7⟩, ⟨3, "a", 9⟩]).repos k = some v → v.repo = k :=
  parse_repo_infos_unique_per_repo [⟨1, "a", 5⟩, ⟨2, "b", 7⟩, ⟨3, "a", 9⟩]

/-- C10: after parsing, `RepoInfos::get` succeeds exactly on the parsed repo
names — under the precondition that the queried repo appears in the input it
returns the stored record, and on any other name the lookup panics (modelled
as `none`) rather than returning an error value. -/
theorem repo_infos_get_total_on_parsed (records : List RepoInfo) (repo : String) :
    (repo ∈ records.map RepoInfo.repo →
      ∃ info, (parse_repo_infos records).get repo = some info ∧ info.repo = repo) ∧
    (repo ∉ records.map RepoInfo.repo → (parse_repo_infos records).get repo = none) := by
  rcases parse_repo_infos_loop_invariant records [] (by simp) (by simp) with ⟨_, h2, h3⟩
  have hkeys : ∀ k, k ∈ (parse_repo_infos records).repos.map Prod.fst ↔
      k ∈ records.map RepoInfo.repo := by
    intro k
    rw [show (parse_repo_infos records).repos = parse_repo_infos_loop [] records from rfl,
      h3 k]
    simp
  constructor
  · intro hmem
    rcases hget : (parse_repo_infos records).get repo with _ | info
    · exfalso
      have := (hashMapGet_eq_none_iff (parse_repo_infos records).repos repo).mp hget
      exact this ((hkeys repo).mpr hmem)
    · exact ⟨info, rfl, h2 (repo, info) (hashMapGet_mem _ _ _ hget)⟩
  · intro hnmem
    exact (hashMapGet_eq_none_iff (parse_repo_infos records).repos repo).mpr
      (fun hk => hnmem ((hkeys repo).mp hk))

/-- C10 witness: concrete lookups, one present and one absent. -/
theorem repo_infos_get_total_on_parsed_witness :
    (∃ info, (parse_repo_infos [⟨1, "a", 5⟩]).get "a" = some info ∧ info.repo = "a") ∧
    (parse_repo_infos [⟨1, "a", 5⟩]).get "zzz" = none :=
  ⟨(repo_infos_get_total_on_parsed [⟨1, "a", 5⟩] "a").1 (by simp),
   (repo_infos_get_total_on_parsed [⟨1, "a", 5⟩] "zzz").2 (by simp)⟩

/-- `parse_participants` is the denylist filter over the input records. -/
theorem parse_participants_loop_eq_filter (records : List RepoParticipant) :
    ∀ acc, parse_participants_loop acc records
      = acc ++ records.filter (fun r => !is_robot r.participant) := by
  induction records with
  | nil => intro acc; simp [parse_participants_loop]
  | cons r rest ih =>
    intro acc
    by_cases h : is_robot r.participant
    · rw [show parse_participants_loop acc (r :: rest)
          = parse_participants_loop acc rest by simp [parse_participants_loop, h]]
      rw [ih acc, List.filter_cons]
      simp [h]
    · rw [show parse_participants_loop acc (r :: rest)
          = parse_participants_loop (acc ++ [r]) rest by
        simp [parse_participants_loop, h]]
      rw [ih (acc ++ [r]), List.filter_cons]
      simp [h]

/-- C1: a record appears in the parsed participants exactly when it is an
input record whose login is not on the bot denylist; in particular no
denylisted login ever yields a row, and for participants alice, bors, bob
only alice and bob survive. -/
theorem parse_participants_excludes_robots :
    (∀ (records : List RepoParticipant) (r : RepoParticipant),
      r ∈ (parse_participants records).participants ↔
        r ∈ records ∧ is_robot r.participant = false) ∧
    (parse_participants
      [⟨1, "alice", "repo", 1, 1, 0, 0⟩, ⟨2, "bors", "repo", 1, 0, 0, 1⟩,
       ⟨3, "bob", "repo", 1, 0, 1, 0⟩]).participants.map RepoParticipant.participant
      = ["alice", "bob"] := by
  constructor
  · intro records r
    rw [show (parse_participants records).participants
        = parse_participants_loop [] records from rfl,
      parse_participants_loop_eq_filter records []]
    simp [List.mem_filter]
  · rfl

/-- C8: `parse_participants` keeps every non-denylisted record in input order,
without merging or deduplicating (it is exactly a filter, which preserves
order and duplicates). -/
theorem parse_participants_keeps_duplicates (records : List RepoParticipant) :
    (parse_participants records).participants
      = records.filter (fun r => !is_robot r.participant) := by
  rw [show (parse_participants records).participants
      = parse_participants_loop [] records from rfl,
    parse_participants_loop_eq_filter records []]
  simp

/-! ### src/report.rs : configuration -/

/-- Struct `Github` (src/report.rs lines 111-115). -/
structure Github where
  org : String
  repos : List String
deriving DecidableEq, Repr

/-- Struct `DataSourceConfig` (src/report.rs lines 117-120). -/
structure DataSourceConfig where
  number_of_days : Int
deriving DecidableEq, Repr

/-- Struct `HighContributorConfig` (src/report.rs lines 122-145). -/
structure HighContributorConfig where
  high_reviewer_min_percentage : Nat
  high_reviewer_min_prs : Nat
  reviewer_saturation_threshold : Nat
  author_saturation_threshold : Nat
  high_participant_min_percentage : Nat
  high_participant_min_prs : Nat
  high_author_min_percentage : Nat
  high_author_min_prs : Nat
  high_contributor_categories_threshold : Nat
deriving DecidableEq, Repr

/-- Struct `ReportConfig` (src/report.rs lines 30-35). The `project` field
holds the `Github` payloads directly: `ProjectConfigValue` is an enum with
`Github` as its only variant. -/
structure ReportConfig where
  project : List Github
  high_contributor : HighContributorConfig
  data_source : DataSourceConfig
deriving DecidableEq, Repr

/-- Modelled from the spec: `percentage` lives in `src/util.rs`, which is not
among the sources; §1 calls the report stage "simple percentage comparisons
against configured cutoffs", so `percentage part total` is the integer
percentage of `part` out of `total`. -/
def percentage (part total : Nat) : Nat :=
  part * 100 / total

/-! ### src/report/repo_info.rs : is_high_contributor.
The three category tests below are the let bindings `high_reviewer`,
`high_activity` and `high_author` of `RepoInfo::is_high_contributor`
(src/report/repo_info.rs lines 78-83), extracted as named definitions. -/

/-- Let binding `high_reviewer` (src/report/repo_info.rs lines 78-79). -/
def high_reviewer (hc : HighContributorConfig) (info : RepoInfo)
    (p : RepoParticipant) : Bool :=
  decide (percentage p.reviewed_or_resolved info.num_prs > hc.high_reviewer_min_percentage)
    || decide (p.reviewed_or_resolved > hc.high_reviewer_min_prs)

/-- Let binding `high_activity` (src/report/repo_info.rs lines 80-81). -/
def high_activity (hc : HighContributorConfig) (info : RepoInfo)
    (p : RepoParticipant) : Bool :=
  decide (percentage p.participated_in info.num_prs > hc.high_participant_min_percentage)
    && decide (p.participated_in > hc.high_participant_min_prs)

/-- Let binding `high_author` (src/report/repo_info.rs lines 82-83). -/
def high_author (hc : HighContributorConfig) (info : RepoInfo)
    (p : RepoParticipant) : Bool :=
  decide (percentage p.authored info.num_prs > hc.high_author_min_percentage)
    && decide (p.authored > hc.high_author_min_prs)

/-- `RepoInfo::is_high_contributor` (src/report/repo_info.rs lines 65-88):
`high_total = high_reviewer as u64 + high_activity as u64 + high_author as u64`
compared against `high_contributor_categories_threshold`. -/
def RepoInfo.is_high_contributor (info : RepoInfo) (config : ReportConfig)
    (p : RepoParticipant) : Bool :=
  let hc := config.high_contributor
  let high_total := (high_reviewer hc info p).toNat + (high_activity hc info p).toNat
    + (high_author hc info p).toNat
  decide (high_total ≥ hc.high_contributor_categories_threshold)

theorem count_true_three (a b c : Bool) :
    ([a, b, c].count true) = a.toNat + b.toNat + c.toNat := by
  cases a <;> cases b <;> cases c <;> rfl

/-! ### src/report/util.rs and src/metrics/list_repos.rs -/

/-- Struct `GitHubOrganization` (src/report/util.rs lines 4-8). -/
structure GitHubOrganization where
  organisation_name : String
  repository_names : List String
deriving DecidableEq, Repr

/-- Struct `ListReposForOrg` (src/metrics/list_repos.rs lines 9-14). The
`graphql` client handle is represented by the `count_pull_requests` oracle
passed to `producer_task`. -/
structure ListReposForOrg where
  org_repos : List GitHubOrganization
  number_of_days : Int
deriving DecidableEq, Repr

/-- `ListReposForOrg::column_names` (src/metrics/list_repos.rs lines 28-30). -/
def ListReposForOrg.column_names (_ : ListReposForOrg) : List String :=
  ["Repository Name", "# of PRs"]

/-- The inner repository loop of `ListReposForOrg::producer_task`
(src/metrics/list_repos.rs lines 34-45): for each repository, count its pull
requests and send the row `vec![repo, count_prs.to_string()]`. The value
`count_pull_requests orgName repo` stands for the successful result of
`util::count_pull_requests` — modelled from the spec, since
src/metrics/util.rs is not among the sources; §4.3 says it "counts pull
requests created within a trailing window of N days (paginating PR search
results)". A count is rendered in decimal by `Nat.repr`, as `to_string`
does. -/
def producer_task_repo_loop (count_pull_requests : String → String → Nat)
    (orgName : String) : List String → List (List String)
  | [] => []
  | repo :: repos =>
    [repo, Nat.repr (count_pull_requests orgName repo)]
      :: producer_task_repo_loop count_pull_requests orgName repos

/-- The outer organisation loop of `ListReposForOrg::producer_task`
(src/metrics/list_repos.rs lines 33-46). -/
def producer_task_org_loop (count_pull_requests : String → String → Nat) :
    List GitHubOrganization → List (List String)
  | [] => []
  | org :: orgs =>
    producer_task_repo_loop count_pull_requests org.organisation_name
        org.repository_names
      ++ producer_task_org_loop count_pull_requests orgs

/-- `ListReposForOrg::producer_task` (src/metrics/list_repos.rs lines 32-49),
returning the sequence of rows sent over the channel on a successful run. -/
def ListReposForOrg.producer_task (task : ListReposForOrg)
    (count_pull_requests : String → String → Nat) : List (List String) :=
  producer_task_org_loop count_pull_requests task.org_repos

theorem producer_task_repo_loop_eq_map (count_pull_requests : String → String → Nat)
    (orgName : String) (repos : List String) :
    producer_task_repo_loop count_pull_requests orgName repos
      = repos.map (fun repo => [repo, Nat.repr (count_pull_requests orgName repo)]) := by
  induction repos with
  | nil => rfl
  | cons repo rest ih => simp [producer_task_repo_loop, ih]

theorem producer_task_org_loop_eq_flatten (count_pull_requests : String → String → Nat)
    (orgs : List GitHubOrganization) :
    producer_task_org_loop count_pull_requests orgs
      = (orgs.map (fun org => org.repository_names.map
          (fun repo => [repo, Nat.repr
            (count_pull_requests org.organisation_name repo)]))).flatten := by
  induction orgs with
  | nil => rfl
  | cons org rest ih =>
    simp [producer_task_org_loop, ih, producer_task_repo_loop_eq_map]

/-! ### Query cache and pagination (not among the sources; modelled from the
spec, §4.1, §4.2, §7, §8). -/

/-- The error taxonomy of §7 that the embedded fragment can produce. -/
inductive QueryError where
  | cacheMiss
  | networkError
  | decodeError
  | cacheWriteError
deriving DecidableEq, Repr

/-- `CacheKey` (§3): logical query name plus 0-based page index. -/
structure CacheKey where
  query_name : String
  page_index : Nat
deriving DecidableEq, Repr

/-- `CachedPage` (§3): raw payload plus the cursor token, absent meaning
"no more pages". -/
structure CachedPage where
  payload : String
  cursor : Option String
deriving DecidableEq, Repr

/-- Lookup of a persisted page by key (one file per key). -/
def cacheLookup (store : List (CacheKey × CachedPage)) (key : CacheKey) :
    Option CachedPage :=
  (store.find? (fun e => e.1 = key)).map Prod.snd

/-- Modelled from the spec: `fetch_or_replay` of the Query Cache (§4.1; the
cache implementation is not among the sources). Returns the page result, the
updated store, and the number of live network calls performed. In replay mode
the persisted page for `key` is read and a missing key fails with `CacheMiss`
— never a fallback to `live_fetch`; in live mode `live_fetch` runs once and a
successful result is persisted under `key`. -/
def fetch_or_replay (replay : Bool) (store : List (CacheKey × CachedPage))
    (key : CacheKey) (live_fetch : Unit → Except QueryError CachedPage) :
    Except QueryError CachedPage × List (CacheKey × CachedPage) × Nat :=
  if replay then
    match cacheLookup store key with
    | some page => (Except.ok page, store, 0)
    | none => (Except.error QueryError.cacheMiss, store, 0)
  else
    match live_fetch () with
    | Except.ok page => (Except.ok page, (key, page) :: store, 1)
    | Except.error e => (Except.error e, store, 1)

/-- One decoded page of a paginated query (§4.2): the page's items and the
next-page cursor, absent on the last page. -/
structure PageOf (α : Type) where
  items : List α
  cursor : Option String
deriving Repr

/-- Modelled from the spec: `paginate` of the Paginated Query Client (§4.2;
the client implementation is not among the sources). The argument is the
finite sequence of pages the API returns in order; `paginate` collects each
page's items and requests the next page only while the current page carries a
cursor, stopping at an absent cursor. -/
def paginate {α : Type} : List (PageOf α) → List α
  | [] => []
  | page :: rest =>
    page.items ++
      (match page.cursor with
       | some _ => paginate rest
       | none => [])

/-! ### Claims C2, C3, C4, C5, C6, C9 -/

/-- C2: `ListReposForOrg` emits exactly one row per configured repository, in
configuration order (organisations in order, repositories within each
organisation in order); each row is the repository name paired with its PR
count rendered in decimal, under the header
`["Repository Name", "# of PRs"]`. -/
theorem list_repos_rows_in_config_order (task : ListReposForOrg)
    (count_pull_requests : String → String → Nat) :
    task.producer_task count_pull_requests
      = (task.org_repos.map (fun org => org.repository_names.map
          (fun repo => [repo, Nat.repr
            (count_pull_requests org.organisation_name repo)]))).flatten ∧
    task.column_names = ["Repository Name", "# of PRs"] :=
  ⟨producer_task_org_loop_eq_flatten count_pull_requests task.org_repos, rfl⟩

/-- C3: in replay mode, a key that was never cached fails with `CacheMiss`,
leaves the store untouched and performs zero network calls — never a fallback
to the live fetch. -/
theorem replay_miss_is_fatal (store : List (CacheKey × CachedPage))
    (key : CacheKey) (live_fetch : Unit → Except QueryError CachedPage)
    (h : cacheLookup store key = none) :
    fetch_or_replay true store key live_fetch
      = (Except.error QueryError.cacheMiss, store, 0) := by
  unfold fetch_or_replay
  rw [if_pos rfl, h]

/-- C3 witness: a concrete replay-mode miss on an empty cache. -/
theorem replay_miss_is_fatal_witness :
    fetch_or_replay true [] ⟨"repo-infos", 0⟩
        (fun _ => Except.ok ⟨"live-payload", none⟩)
      = (Except.error QueryError.cacheMiss, [], 0) :=
  replay_miss_is_fatal [] ⟨"repo-infos", 0⟩
    (fun _ => Except.ok ⟨"live-payload", none⟩) rfl

/-- C4: for a finite page sequence whose non-final pages carry a cursor and
whose final page's cursor is absent, `paginate` terminates with exactly the
concatenation of all pages' items, in page order. -/
theorem paginate_concat {α : Type} (pages : List (PageOf α))
    (hmid : ∀ p ∈ pages.dropLast, (PageOf.cursor p).isSome = true)
    (hlast : ∀ h : pages ≠ [], (pages.getLast h).cursor = none) :
    paginate pages = (pages.map PageOf.items).flatten := by
  induction pages with
  | nil => rfl
  | cons page rest ih =>
    cases rest with
    | nil =>
      have hc : page.cursor = none := hlast (by simp)
      simp [paginate, hc]
    | cons page2 rest2 =>
      have hc : page.cursor.isSome = true := by
        apply hmid
        rw [List.dropLast_cons_of_ne_nil (by simp)]
        exact List.mem_cons_self page _
      rcases hcs : page.cursor with _ | c
      · rw [hcs] at hc; cases hc
      · have hmid2 : ∀ p ∈ (page2 :: rest2).dropLast, (PageOf.cursor p).isSome = true := by
          intro p hp
          apply hmid
          rw [List.dropLast_cons_of_ne_nil (by simp)]
          exact List.mem_cons_of_mem page hp
        have hlast2 : ∀ h : (page2 :: rest2) ≠ [], ((page2 :: rest2).getLast h).cursor = none := by
          intro h
          rw [← List.getLast_cons (l := page2 :: rest2) (a := page) h]
          exact hlast (by simp)
        rw [show paginate (page :: page2 :: rest2)
            = page.items ++ paginate (page2 :: rest2) by simp [paginate, hcs]]
        rw [ih hmid2 hlast2]
        simp

/-- C4 witness: two concrete pages, the first with a cursor, the last
without. -/
theorem paginate_concat_witness :
    paginate [PageOf.mk [1, 2] (some "c1"), PageOf.mk [3] none]
      = (([PageOf.mk [1, 2] (some "c1"), PageOf.mk [3] none] :
          List (PageOf Nat)).map PageOf.items).flatten :=
  paginate_concat [PageOf.mk [1, 2] (some "c1"), PageOf.mk [3] none]
    (by intro p hp; simp at hp; rw [hp]; rfl)
    (fun _ => rfl)

/-- C5: every row sent by `ListReposForOrg::producer_task` has exactly as many
fields as the producer's declared column header (both are 2). -/
theorem list_repos_row_width_matches_header (task : ListReposForOrg)
    (count_pull_requests : String → String → Nat) (row : List String)
    (h : row ∈ task.producer_task count_pull_requests) :
    row.length = task.column_names.length := by
  rw [ListReposForOrg.producer_task,
    producer_task_org_loop_eq_flatten count_pull_requests task.org_repos] at h
  rw [List.mem_flatten] at h
  rcases h with ⟨rows, hrows, hrow⟩
  rcases List.mem_map.mp hrows with ⟨org, _, rfl⟩
  rcases List.mem_map.mp hrow with ⟨repo, _, rfl⟩
  rfl

/-- C5 witness: a concrete row of a one-repository configuration. -/
theorem list_repos_row_width_matches_header_witness :
    (["a", "5"] : List String).length
      = (ListReposForOrg.mk [⟨"rust-lang", ["a", "b"]⟩] 30).column_names.length :=
  list_repos_row_width_matches_header (ListReposForOrg.mk [⟨"rust-lang", ["a", "b"]⟩] 30)
    (fun _ _ => 5) ["a", "5"] (by decide)

/-- C6: `is_high_contributor` holds exactly when the number of contribution
categories in which the participant is high — high reviewer, high activity,
high author — reaches `high_contributor_categories_threshold`. -/
theorem is_high_contributor_iff_categories (config : ReportConfig)
    (info : RepoInfo) (p : RepoParticipant) :
    info.is_high_contributor config p = true ↔
      ([high_reviewer config.high_contributor info p,
        high_activity config.high_contributor info p,
        high_author config.high_contributor info p].count true)
        ≥ config.high_contributor.high_contributor_categories_threshold := by
  rw [RepoInfo.is_high_contributor, count_true_three, decide_eq_true_eq]

/-- C9: `reviewed_or_resolved` is the maximum of the reviewed and resolved
counts — not their sum — and the high-contributor classification reads the
two counts only through that maximum. -/
theorem reviewed_or_resolved_is_max :
    (∀ p : RepoParticipant, p.reviewed_or_resolved = max p.reviewed p.resolved) ∧
    ∀ (config : ReportConfig) (info : RepoInfo) (p q : RepoParticipant),
      p.participated_in = q.participated_in → p.authored = q.authored →
      max p.reviewed p.resolved = max q.reviewed q.resolved →
      info.is_high_contributor config p = info.is_high_contributor config q := by
  refine ⟨fun p => rfl, fun config info p q h1 h2 h3 => ?_⟩
  have hrr : p.reviewed_or_resolved = q.reviewed_or_resolved := h3
  rw [RepoInfo.is_high_contributor, RepoInfo.is_high_contributor,
    high_reviewer, high_reviewer, high_activity, high_activity,
    high_author, high_author, hrr, h1, h2]

/-- C9 witness: two participants with swapped reviewed/resolved counts and
equal maxima classify identically. -/
theorem reviewed_or_resolved_is_max_witness :
    (RepoParticipant.mk 1 "alice" "a" 4 2 3 1).reviewed_or_resolved
        = max 3 1 ∧
    (RepoInfo.mk 1 "a" 10).is_high_contributor
        ⟨[⟨"rust-lang", ["a"]⟩], ⟨50, 2, 9, 9, 50, 2, 50, 2, 2⟩, ⟨30⟩⟩
        (RepoParticipant.mk 1 "alice" "a" 4 2 3 1)
      = (RepoInfo.mk 1 "a" 10).is_high_contributor
        ⟨[⟨"rust-lang", ["a"]⟩], ⟨50, 2, 9, 9, 50, 2, 50, 2, 2⟩, ⟨30⟩⟩
        (RepoParticipant.mk 2 "alicia" "a" 4 2 1 3) :=
  ⟨reviewed_or_resolved_is_max.1 (RepoParticipant.mk 1 "alice" "a" 4 2 3 1),
   reviewed_or_resolved_is_max.2
     ⟨[⟨"rust-lang", ["a"]⟩], ⟨50, 2, 9, 9, 50, 2, 50, 2, 2⟩, ⟨30⟩⟩
     (RepoInfo.mk 1 "a" 10)
     (RepoParticipant.mk 1 "alice" "a" 4 2 3 1)
     (RepoParticipant.mk 2 "alicia" "a" 4 2 1 3) rfl rfl rfl⟩

end Optopodi
